import Mathlib

/-!
Verification of the Loki workflow execution engine.

Shallow embedding of the run engine (`internal/engine/engine.go`:
`WorkflowEngine.Execute`, `processNode`, `findStartNodes`, `findNextNodes`,
`getIncomingEdges`, `updateLog`), of selected executors
(`internal/engine/nodes/{condition,wait,http_request}.go`), of the executor
registry (`internal/engine/factory.go`) and of the log repository update
(`internal/repository/node_run_log_repository.go`).

Modelling conventions:
  - Go `map[string]interface{}` JSON values become the inductive `Json`
    (numbers as rationals standing for the parsed float64 values).
  - Go maps become association lists with replace-or-append insertion
    (`ainsert`) and first-match lookup (`alookup`); map iteration order,
    which Go leaves unspecified, is fixed to insertion order, and no theorem
    below depends on that order beyond set membership.
  - UUIDs become natural numbers.
  - Repository calls are modelled as infallible writes into an explicit
    state (`EngineSt`), mirroring that the engine treats log-update failures
    as non-fatal and that run/log repository behavior is not under test here
    except for the SQL update modelled separately for the log repository.
  - Executors perform I/O; the engine is parametrised by an oracle
    `NodeOracle` mapping the node type key and the marshalled input blob to
    the `(result, error)` pair an executor returns.  Concrete executors are
    embedded as pure functions of their parsed input plus an explicit
    external-world argument (cancellation flag, HTTP outcome).
  - The unbounded `for` loop of `Execute` becomes a fuel-indexed recursion;
    `engineFuel` is a concrete bound proved sufficient below.
  - Error strings keep the Go text with UUID interpolations elided.
-/

namespace Loki

/-- Parsed JSON values as produced by Go `json.Unmarshal` into
`interface\x7b\x7d`: `null`, `bool`, `float64` (modelled as a rational),
`string`, `[]interface\x7b\x7d` and `map[string]interface\x7b\x7d`. -/
inductive Json where
  | null : Json
  | bool (b : Bool) : Json
  | num (q : ℚ) : Json
  | str (s : String) : Json
  | arr (elems : List Json) : Json
  | obj (fields : List (String × Json)) : Json

/-- Association-list lookup, modelling Go map indexing `m[k]`. -/
def alookup {κ α : Type} [DecidableEq κ] : List (κ × α) → κ → Option α
  | [], _ => none
  | (k2, v) :: rest, k => if k2 = k then some v else alookup rest k

/-- Association-list insertion, modelling Go map assignment `m[k] = v`
(replaces the binding if the key is present, appends otherwise). -/
def ainsert {κ α : Type} [DecidableEq κ] : List (κ × α) → κ → α → List (κ × α)
  | [], k, v => [(k, v)]
  | (k2, v2) :: rest, k, v =>
      if k2 = k then (k, v) :: rest else (k2, v2) :: ainsert rest k v

/-- Modify the element at an index, leaving the list unchanged when the
index is out of range.  Used to update one log row in place. -/
def modifyAt {α : Type} : List α → Nat → (α → α) → List α
  | [], _, _ => []
  | x :: xs, 0, f => f x :: xs
  | x :: xs, Nat.succ i, f => x :: modifyAt xs i f

/-- Executor result (`domain.NodeResult`): status, output data map,
triggered handle, log text. -/
structure NodeResult where
  status : String
  outputData : List (String × Json)
  triggeredHandle : String
  log : String

/-- Workflow node (`domain.WorkflowNode`): stable id and the configuration
map `Data`.  The workflow id, template id and canvas position are not read
by the engine and are elided. -/
structure WorkflowNode where
  id : Nat
  data : List (String × Json)

/-- Workflow edge (`domain.WorkflowEdge`): source and target node ids plus
the two handle names.  The edge id and workflow id are not read by the
engine and are elided. -/
structure WorkflowEdge where
  sourceNodeID : Nat
  targetNodeID : Nat
  sourceHandle : String
  targetHandle : String

/-- The graph slice of `WorkflowEngine`: the node list and the edge list
handed to `NewWorkflowEngine`. -/
structure WorkflowEngine where
  nodes : List WorkflowNode
  edges : List WorkflowEdge

/-- Abstract executor dispatch: given the node type key and the marshalled
input blob, return the `(result, err)` pair of `INodeExecutor.Execute`. -/
def NodeOracle : Type := String → Json → NodeResult × Option String

/-- Type keys accepted by `NewNodeExecutor` in `factory.go`; any other key
returns the `unknown node type` error. -/
def knownTypes : List String :=
  ["http_request", "shell_command", "condition", "loop", "webhook", "cron",
   "wait", "merge", "set_data", "code_js", "log", "file_read", "file_write",
   "db_postgres", "db_mysql", "email_smtp", "slack", "mq_rabbitmq_publish"]

/-- One call to `LogRepo.Update`: the fields of
`domain.UpdateNodeRunLogRequest`. -/
structure LogUpdate where
  status : String
  logOutput : String
  errorMsg : String
deriving DecidableEq

/-- One log row as the engine sees it: the node it belongs to, the status
it was created with, and the updates applied to it in order. -/
structure LogEntry where
  nodeId : Nat
  createdStatus : String
  updates : List LogUpdate
deriving DecidableEq

/-- Observable engine state: log rows in creation order, run status updates
in order (status, whether finished-at was stamped), the in-memory
`nodeOutputs` table, and the trace of `(nodeID, triggeredHandle)` pairs
returned by successful `processNode` calls. -/
structure EngineSt where
  logs : List LogEntry
  runUpdates : List (String × Bool)
  nodeOutputs : List (Nat × List (String × Json))
  fired : List (Nat × String)

/-- Outcome of `Execute`: clean drain, the returned error, or fuel
exhaustion of the modelled loop. -/
inductive RunOutcome where
  | completed : RunOutcome
  | failed (msg : String) : RunOutcome
  | outOfFuel : RunOutcome
deriving DecidableEq

/-- Engine helper `updateLog`: append one `UpdateNodeRunLogRequest` to the
log row the engine created (identified by its creation index). -/
def updateLog (st : EngineSt) (logId : Nat) (status logOutput errorMsg : String) : EngineSt :=
  { st with
      logs := modifyAt st.logs logId
        (fun row => { row with updates := row.updates ++ [⟨status, logOutput, errorMsg⟩] }) }

/-- The `failRun` effect: `RunRepo.UpdateStatus(failed, now)`. -/
def markFailed (st : EngineSt) : EngineSt :=
  { st with runUpdates := st.runUpdates ++ [("failed", true)] }

/-- The clean-drain effect: `RunRepo.UpdateStatus(completed, now)`. -/
def markCompleted (st : EngineSt) : EngineSt :=
  { st with runUpdates := st.runUpdates ++ [("completed", true)] }

/-- Ghost trace entry recording the triggered handle `processNode` returned
for a node, written exactly when the loop computes that node's next nodes. -/
def recordFired (st : EngineSt) (nodeID : Nat) (th : String) : EngineSt :=
  { st with fired := st.fired ++ [(nodeID, th)] }

/-- The node map built by `NewWorkflowEngine` (`nodeMap[node.ID] = node`
over the node list, later entries overwriting earlier duplicate ids). -/
def nodeMap (g : WorkflowEngine) : List (Nat × WorkflowNode) :=
  g.nodes.foldl (fun m node => ainsert m node.id node) []

/-- Engine helper `findStartNodes`: ids in the node map that are never the
target of any edge. -/
def findStartNodes (g : WorkflowEngine) : List Nat :=
  ((nodeMap g).map Prod.fst).filter
    (fun id => !(g.edges.any (fun e => e.targetNodeID == id)))

/-- Engine helper `getIncomingEdges`: edges whose target is the node. -/
def getIncomingEdges (g : WorkflowEngine) (nodeID : Nat) : List WorkflowEdge :=
  g.edges.filter (fun e => e.targetNodeID == nodeID)

/-- Engine helper `findNextNodes`: targets of the outgoing edges, keeping
an edge only when the triggered handle is empty or equals the edge source
handle. -/
def findNextNodes (g : WorkflowEngine) (nodeID : Nat) (triggeredHandle : String) : List Nat :=
  g.edges.foldl
    (fun next e =>
      if e.sourceNodeID == nodeID then
        if triggeredHandle != "" && e.sourceHandle != triggeredHandle then next
        else next ++ [e.targetNodeID]
      else next)
    []

/-- Value routed across one incoming edge in `processNode`: none when the
source has produced no output; otherwise `sourceOutput[edge.SourceHandle]`
when present, else the whole source output map. -/
def routedValue (outputs : List (Nat × List (String × Json))) (e : WorkflowEdge) : Option Json :=
  match alookup outputs e.sourceNodeID with
  | none => none
  | some out =>
      match alookup out e.sourceHandle with
      | some v => some v
      | none => some (Json.obj out)

/-- The `inputsFromUpstream` loop of `processNode`: fold the incoming edges
in order, writing the routed value under the edge target handle. -/
def resolveInputs (outputs : List (Nat × List (String × Json)))
    (incoming : List WorkflowEdge) : List (String × Json) :=
  incoming.foldl
    (fun acc e =>
      match routedValue outputs e with
      | none => acc
      | some v => ainsert acc e.targetHandle v)
    []

/-- The last edge of the list that targets the given handle and whose
source has produced an output map; with last-write-wins map assignment this
edge determines the routed value for that handle. -/
def lastQualifying (outputs : List (Nat × List (String × Json))) :
    List WorkflowEdge → String → Option WorkflowEdge
  | [], _ => none
  | e :: rest, ht =>
      match lastQualifying outputs rest ht with
      | some x => some x
      | none =>
          if e.targetHandle = ht ∧ (routedValue outputs e).isSome then some e else none

/-- Engine `processNode`: create the running log row, resolve upstream
inputs, build the input blob, dispatch on the `type` key, run the executor
through the oracle, record outputs, update the log, and return the
triggered handle or an error, following `engine.go` line by line. -/
def processNode (oracle : NodeOracle) (g : WorkflowEngine) (st : EngineSt)
    (nodeID : Nat) : EngineSt × Except String String :=
  match alookup (nodeMap g) nodeID with
  | none => (st, Except.error "node not found")
  | some node =>
      let logId := st.logs.length
      let st1 : EngineSt := { st with logs := st.logs ++ [⟨nodeID, "running", []⟩] }
      let incoming := getIncomingEdges g nodeID
      let inputsFromUpstream := resolveInputs st1.nodeOutputs incoming
      let inputData := ainsert node.data "input" (Json.obj inputsFromUpstream)
      match alookup node.data "type" with
      | none => (st1, Except.error "node type not found in data")
      | some typeVal =>
          match typeVal with
          | Json.str nodeType =>
              if knownTypes.contains nodeType then
                match oracle nodeType (Json.obj inputData) with
                | (_result, some e) =>
                    (updateLog st1 logId "failed" "" e, Except.error e)
                | (result, none) =>
                    let st2 : EngineSt :=
                      { st1 with nodeOutputs := ainsert st1.nodeOutputs nodeID result.outputData }
                    let status := if result.status == "failed" then "failed" else "completed"
                    let st3 := updateLog st2 logId status result.log ""
                    if result.status == "failed" then
                      (st3, Except.error "node execution failed")
                    else
                      (st3, Except.ok result.triggeredHandle)
              else
                (updateLog st1 logId "failed" "" ("unknown node type: " ++ nodeType),
                 Except.error ("unknown node type: " ++ nodeType))
          | _ => (st1, Except.error "invalid node type format")

/-- The traversal loop of `Execute`: FIFO queue seeded with the start
nodes, a visited set filtering re-enqueued ids, one `processNode` call per
fresh id, run failure on a node error, run completion on drain.  Fuel
bounds the modelled recursion; `engineFuel` below always suffices. -/
def engineLoop (oracle : NodeOracle) (g : WorkflowEngine) :
    Nat → List Nat → Finset Nat → EngineSt → EngineSt × RunOutcome
  | _, [], _, st => (markCompleted st, RunOutcome.completed)
  | 0, _ :: _, _, st => (st, RunOutcome.outOfFuel)
  | Nat.succ fuel, nodeID :: rest, visited, st =>
      if nodeID ∈ visited then engineLoop oracle g fuel rest visited st
      else
        match processNode oracle g st nodeID with
        | (st2, Except.error e) => (markFailed st2, RunOutcome.failed e)
        | (st2, Except.ok th) =>
            engineLoop oracle g fuel (rest ++ findNextNodes g nodeID th)
              (insert nodeID visited) (recordFired st2 nodeID th)

/-- Engine `Execute`: mark the run running, compute start nodes, fail the
run when there are none, otherwise drive the traversal loop. -/
def Execute (oracle : NodeOracle) (g : WorkflowEngine) (fuel : Nat) : EngineSt × RunOutcome :=
  let st0 : EngineSt := ⟨[], [("running", false)], [], []⟩
  match findStartNodes g with
  | [] => (markFailed st0, RunOutcome.failed "No start nodes found")
  | starts => engineLoop oracle g fuel starts ∅ st0

/-- Every id the loop can ever enqueue: node-map keys (seeds) and edge
targets (pushed by `findNextNodes`). -/
def univIds (g : WorkflowEngine) : Finset Nat :=
  ((nodeMap g).map Prod.fst).toFinset ∪ (g.edges.map (fun e => e.targetNodeID)).toFinset

/-- Decreasing measure of the traversal loop. -/
def loopMeasure (g : WorkflowEngine) (queue : List Nat) (visited : Finset Nat) : Nat :=
  queue.length + ((univIds g).card - visited.card) * (g.edges.length + 2)

/-- Concrete fuel bound sufficient for any graph. -/
def engineFuel (g : WorkflowEngine) : Nat :=
  g.nodes.length + (univIds g).card * (g.edges.length + 2)

/-- `Execute` run with the sufficient fuel bound. -/
def ExecuteRun (oracle : NodeOracle) (g : WorkflowEngine) : EngineSt × RunOutcome :=
  Execute oracle g (engineFuel g)

/-- Number of log rows recorded for a node id. -/
def countLogs (st : EngineSt) (id : Nat) : Nat :=
  List.count id (st.logs.map (fun l => l.nodeId))

/-- A node id is justified by a fired trace when it is a start node or some
edge into it fired: its source returned a triggered handle that is empty or
equal to the edge source handle. -/
def Justified (g : WorkflowEngine) (fired : List (Nat × String)) (n : Nat) : Prop :=
  n ∈ findStartNodes g ∨
    ∃ e, e ∈ g.edges ∧ e.targetNodeID = n ∧
      ∃ th, (e.sourceNodeID, th) ∈ fired ∧ (th = "" ∨ e.sourceHandle = th)

/-! Condition executor (`internal/engine/nodes/condition.go`). -/

/-- Helper `toFloat` of `condition.go` applied to a parsed JSON value: only
the `float64` arm is reachable, since `json.Unmarshal` into
`interface\x7b\x7d` produces no `int`, `int32`, `int64` or `float32`. -/
def toFloat : Json → Option ℚ
  | Json.num q => some q
  | _ => none

/-- Model of the Go `fmt.Sprintf` verb `%v` on a parsed JSON value, used
only by the string fallback of `compare`; the exact float and composite
renderings of the external `fmt` package are abstracted. -/
def goSprintf : Json → String
  | Json.null => "<nil>"
  | Json.bool b => if b then "true" else "false"
  | Json.num q => toString q
  | Json.str s => s
  | Json.arr _ => "[array]"
  | Json.obj _ => "map[object]"

/-- Helper `compare` of `condition.go` (renamed to avoid clashing with
`Ord.compare`): numeric comparison when both operands convert to float,
otherwise lexical comparison of their `%v` renderings. -/
def compareVals (v1 v2 : Json) : Int :=
  match toFloat v1, toFloat v2 with
  | some f1, some f2 => if f1 > f2 then 1 else if f1 < f2 then -1 else 0
  | _, _ =>
      let s1 := goSprintf v1
      let s2 := goSprintf v2
      if s1 > s2 then 1 else if s1 < s2 then -1 else 0

/-- Go interface equality `==` on two values decoded by `json.Unmarshal`:
equal dynamic scalar types compare by value, differing dynamic types
compare unequal, and identical uncomparable dynamic types
(`map[string]interface\x7b\x7d`, `[]interface\x7b\x7d`) cause a run-time
panic, modelled as `none`. -/
def goEq : Json → Json → Option Bool
  | Json.null, Json.null => some true
  | Json.bool a, Json.bool b => some (decide (a = b))
  | Json.num a, Json.num b => some (decide (a = b))
  | Json.str a, Json.str b => some (decide (a = b))
  | Json.obj _, Json.obj _ => none
  | Json.arr _, Json.arr _ => none
  | _, _ => some false

/-- Result value built at the end of `ConditionNode.Execute` for a
successfully evaluated comparison. -/
def condResult (b : Bool) : NodeResult × Option String :=
  (⟨"completed", [("result", Json.bool b)],
    if b then "output_true" else "output_false",
    "Condition evaluated to " ++ (if b then "true" else "false")⟩,
   none)

/-- `ConditionNode.Execute` after its input blob has been unmarshalled into
`value1`, `operator`, `value2`; `none` models the run-time panic of Go
interface equality on uncomparable types. -/
def conditionExecute (value1 : Json) (operator : String) (value2 : Json) :
    Option (NodeResult × Option String) :=
  match operator with
  | "==" => (goEq value1 value2).map condResult
  | "!=" => (goEq value1 value2).map (fun r => condResult (!r))
  | ">" => some (condResult (decide (compareVals value1 value2 > 0)))
  | "<" => some (condResult (decide (compareVals value1 value2 < 0)))
  | ">=" => some (condResult (decide (compareVals value1 value2 ≥ 0)))
  | "<=" => some (condResult (decide (compareVals value1 value2 ≤ 0)))
  | _ =>
      some (⟨"failed", [("error", Json.str "Unknown operator")], "",
             "Unknown operator: " ++ operator⟩,
            some ("unknown operator: " ++ operator))

/-- True unless both operands carry the same uncomparable dynamic type
(both objects or both arrays), i.e. exactly when Go `==` cannot panic. -/
def scalarComparable (v1 v2 : Json) : Bool :=
  match v1, v2 with
  | Json.obj _, Json.obj _ => false
  | Json.arr _, Json.arr _ => false
  | _, _ => true

/-! Wait executor (`internal/engine/nodes/wait.go`). -/

/-- Parsed input of `WaitNode.Execute`. -/
structure WaitData where
  duration : Int
  unit : String

/-- Sleep length in milliseconds computed by the unit switch of
`WaitNode.Execute` (default unit is milliseconds). -/
def waitDurationMs (d : WaitData) : Int :=
  match d.unit with
  | "s" => d.duration * 1000
  | "m" => d.duration * 60000
  | "h" => d.duration * 3600000
  | _ => d.duration

/-- `WaitNode.Execute` after unmarshalling: the select race between the
timer and the context is abstracted by `cancelledFirst`, true when the
context is cancelled before the timer fires; `ctx.Err()` renders as
`context canceled`. -/
def waitExecute (d : WaitData) (cancelledFirst : Bool) : NodeResult × Option String :=
  if cancelledFirst then
    (⟨"cancelled", [("error", Json.str "cancelled")], "", "Wait cancelled"⟩,
     some "context canceled")
  else
    (⟨"completed", [("waited", Json.bool true)], "output",
      "Waited for " ++ toString (waitDurationMs d) ++ "ms"⟩,
     none)

/-! HTTP request executor (`internal/engine/nodes/http_request.go`). -/

/-- Parsed input of `HttpRequestNode.Execute`.  The `body` marshal step
cannot fail on an already-decoded value and is elided. -/
structure HttpData where
  url : String
  method : String
  headers : List (String × String)
  body : Option Json

/-- Outcome of `client.Do`: either no response was obtained (transport
failure) or a response arrived; `bodyVal` is the response body after the
parse-as-JSON-else-keep-string step, `hdrs` the response header map. -/
inductive HttpOutcome where
  | noResponse (errMsg : String) : HttpOutcome
  | gotResponse (code : Int) (bodyVal : Json) (hdrs : Json) : HttpOutcome

/-- `HttpRequestNode.Execute` after unmarshalling: `reqErr` models a
`http.NewRequestWithContext` failure, `outcome` the external world. -/
def httpRequestExecute (d : HttpData) (reqErr : Option String)
    (outcome : HttpOutcome) : NodeResult × Option String :=
  if d.url = "" then
    (⟨"failed", [("error", Json.str "URL is required")], "", "URL is required"⟩,
     some "URL is required")
  else
    match reqErr with
    | some e =>
        (⟨"failed", [("error", Json.str e)], "", "Failed to create request: " ++ e⟩,
         some e)
    | none =>
        match outcome with
        | HttpOutcome.noResponse e =>
            (⟨"failed", [("error", Json.str e)], "output_error", "Request failed: " ++ e⟩,
             none)
        | HttpOutcome.gotResponse code bodyVal hdrs =>
            (⟨"completed",
              [("status", Json.num (code : ℚ)), ("body", bodyVal), ("headers", hdrs)],
              "output_success",
              "Request completed with status " ++ toString code⟩,
             none)

/-! Log repository update (`internal/repository/node_run_log_repository.go`). -/

/-- One `node_run_logs` row as touched by `Update`: the status column plus
the nullable `log_output`, `error_msg` and `finished_at` columns and the
`updated_at` timestamp, times as naturals. -/
structure NodeRunLogRow where
  status : String
  logOutput : Option String
  errorMsg : Option String
  finishedAt : Option Nat
  updatedAt : Nat
deriving DecidableEq

/-- Fields of `domain.UpdateNodeRunLogRequest`. -/
structure UpdateNodeRunLogRequest where
  status : String
  logOutput : String
  errorMsg : String

/-- SQL `NULLIF(s, \x27\x27)`. -/
def nullif (s : String) : Option String :=
  if s = "" then none else some s

/-- The statuses the `finished_at` CASE of the update query treats as
terminal. -/
def terminalStatuses : List String := ["completed", "failed", "skipped"]

/-- The UPDATE statement of `NodeRunLogRepository.Update`: empty incoming
strings leave columns unchanged via `COALESCE(NULLIF(..), ..)`, and
`finished_at` is stamped only when the incoming status is terminal and the
column is currently NULL. -/
def updateNodeRunLogRow (row : NodeRunLogRow) (req : UpdateNodeRunLogRequest)
    (now : Nat) : NodeRunLogRow :=
  { status := (nullif req.status).getD row.status
    logOutput :=
      match nullif req.logOutput with
      | some s => some s
      | none => row.logOutput
    errorMsg :=
      match nullif req.errorMsg with
      | some s => some s
      | none => row.errorMsg
    finishedAt :=
      if req.status ∈ terminalStatuses ∧ row.finishedAt = none then some now
      else row.finishedAt
    updatedAt := now }

/-! Concrete instances used by the counterexamples and witnesses. -/

/-- An executor result used as a generic successful answer. -/
def logOkResult : NodeResult :=
  ⟨"completed", [("logged", Json.bool true)], "output", "Logged"⟩

/-- Oracle answering every executor call with a generic success. -/
def defaultOracle : NodeOracle := fun _ _ => (logOkResult, none)

/-- Soft-failure result of `http_request` on a transport error: status
failed, handle `output_error`, nil engine-level error. -/
def softFailResult : NodeResult :=
  ⟨"failed", [("error", Json.str "request failed")], "output_error", "Request failed"⟩

/-- Two-node workflow: an `http_request` node 1 with an `output_error` edge
to a `log` node 2. -/
def c1Graph : WorkflowEngine :=
  ⟨[⟨1, [("type", Json.str "http_request"), ("url", Json.str "http://unreachable.invalid")]⟩,
    ⟨2, [("type", Json.str "log")]⟩],
   [⟨1, 2, "output_error", "input"⟩]⟩

/-- Oracle making the `http_request` executor soft-fail. -/
def c1Oracle : NodeOracle :=
  fun t _ => if t == "http_request" then (softFailResult, none) else (logOkResult, none)

/-- Single `wait` node of the given duration in milliseconds. -/
def c2Graph (d : Int) : WorkflowEngine :=
  ⟨[⟨1, [("type", Json.str "wait"), ("duration", Json.num (d : ℚ))]⟩], []⟩

/-- Oracle running the wait executor with the context cancelled during the
sleep. -/
def c2Oracle (d : Int) : NodeOracle :=
  fun t _ => if t == "wait" then waitExecute ⟨d, "ms"⟩ true else (logOkResult, none)

/-- Single node whose configuration has no `type` key. -/
def c3Graph : WorkflowEngine :=
  ⟨[⟨1, [("data", Json.obj [])]⟩], []⟩

/-- Single `set_data` node, used to witness the amended log discipline. -/
def c3WitnessNode : WorkflowNode :=
  ⟨1, [("type", Json.str "set_data"), ("data", Json.obj [("foo", Json.str "bar")])]⟩

/-- Graph holding only the witness node. -/
def c3WitnessGraph : WorkflowEngine := ⟨[c3WitnessNode], []⟩

/-- Output table where node 10 produced key `a` and node 20 produced key
`b`. -/
def c4Outputs : List (Nat × List (String × Json)) :=
  [(10, [("a", Json.str "v1")]), (20, [("b", Json.str "v2")])]

/-- Two incoming edges of node 3 sharing the target handle `in`. -/
def c4Incoming : List WorkflowEdge :=
  [⟨10, 3, "a", "in"⟩, ⟨20, 3, "b", "in"⟩]

/-- Condition node 1 with a true branch to node 2 and a false branch to
node 3, used to witness handle isolation. -/
def c5Graph : WorkflowEngine :=
  ⟨[⟨1, [("type", Json.str "condition")]⟩,
    ⟨2, [("type", Json.str "log")]⟩,
    ⟨3, [("type", Json.str "log")]⟩],
   [⟨1, 2, "output_true", "input"⟩, ⟨1, 3, "output_false", "input"⟩]⟩

/-- Oracle whose condition executor triggers `output_true`. -/
def c5Oracle : NodeOracle :=
  fun t _ =>
    if t == "condition" then
      (⟨"completed", [("result", Json.bool true)], "output_true", "Condition evaluated to true"⟩, none)
    else (logOkResult, none)

/-- Two-node cycle: every node is the target of some edge, so the start
set is empty. -/
def c6Graph : WorkflowEngine :=
  ⟨[⟨1, [("type", Json.str "merge")]⟩, ⟨2, [("type", Json.str "merge")]⟩],
   [⟨1, 2, "output", "input"⟩, ⟨2, 1, "output", "input"⟩]⟩

/-- A stored log row used to witness the update frame conditions. -/
def c10Row : NodeRunLogRow :=
  ⟨"running", some "previous output", some "previous error", none, 3⟩

/-- An update request whose string fields are all empty. -/
def c10Req : UpdateNodeRunLogRequest := ⟨"", "", ""⟩

/-- Engine state right after the run was marked running, before any node
was processed. -/
def emptySt : EngineSt := ⟨[], [("running", false)], [], []⟩

/-! Helper lemmas about the association-list and list operations. -/

theorem alookup_ainsert {κ α : Type} [DecidableEq κ] (l : List (κ × α)) (k k2 : κ) (v : α) :
    alookup (ainsert l k v) k2 = if k2 = k then some v else alookup l k2 := by
  induction l with
  | nil =>
      simp only [ainsert, alookup]
      by_cases h : k2 = k
      · subst h; simp
      · rw [if_neg (Ne.symm h), if_neg h]
  | cons p rest ih =>
      obtain ⟨k1, v1⟩ := p
      by_cases h : k1 = k
      · subst h
        simp only [ainsert, if_pos rfl, alookup]
        by_cases h2 : k2 = k1
        · subst h2; simp
        · rw [if_neg (Ne.symm h2), if_neg h2, if_neg (Ne.symm h2)]
      · simp only [ainsert, if_neg h, alookup]
        by_cases h2 : k1 = k2
        · subst h2
          rw [if_pos rfl, if_neg h, if_pos rfl]
        · rw [if_neg h2, ih, if_neg h2]

theorem mem_keys_ainsert {κ α : Type} [DecidableEq κ] (l : List (κ × α)) (k a : κ) (v : α) :
    a ∈ (ainsert l k v).map Prod.fst ↔ a = k ∨ a ∈ l.map Prod.fst := by
  induction l with
  | nil => simp [ainsert]
  | cons p rest ih =>
      obtain ⟨k1, v1⟩ := p
      by_cases h : k1 = k
      · subst h; simp [ainsert]
      · simp [ainsert, h, ih]
        tauto

theorem ainsert_length_le {κ α : Type} [DecidableEq κ] (l : List (κ × α)) (k : κ) (v : α) :
    (ainsert l k v).length ≤ l.length + 1 := by
  induction l with
  | nil => simp [ainsert]
  | cons p rest ih =>
      obtain ⟨k1, v1⟩ := p
      by_cases h : k1 = k <;> simp [ainsert, h] <;> omega

theorem modifyAt_append_length {α : Type} (l : List α) (x : α) (f : α → α) :
    modifyAt (l ++ [x]) l.length f = l ++ [f x] := by
  induction l with
  | nil => simp [modifyAt]
  | cons y ys ih => simpa [modifyAt] using ih

theorem modifyAt_map {α β : Type} (p : α → β) (f : α → α) (hp : ∀ x, p (f x) = p x) :
    ∀ (l : List α) (i : Nat), (modifyAt l i f).map p = l.map p := by
  intro l
  induction l with
  | nil => intro i; simp [modifyAt]
  | cons x xs ih =>
      intro i
      cases i with
      | zero => simp [modifyAt, hp]
      | succ j => simp [modifyAt, ih]

/-! Helper lemmas about the node map and the graph helpers. -/

theorem mem_keys_nodeMap_aux :
    ∀ (nodes : List WorkflowNode) (acc : List (Nat × WorkflowNode)) (n : Nat),
      (n ∈ (nodes.foldl (fun m node => ainsert m node.id node) acc).map Prod.fst ↔
        n ∈ acc.map Prod.fst ∨ ∃ node, node ∈ nodes ∧ node.id = n) := by
  intro nodes
  induction nodes with
  | nil => intro acc n; simp
  | cons x xs ih =>
      intro acc n
      rw [List.foldl_cons, ih, mem_keys_ainsert]
      constructor
      · rintro ((h | h) | ⟨node, hn, hid⟩)
        · exact Or.inr ⟨x, List.mem_cons_self x xs, h.symm⟩
        · exact Or.inl h
        · exact Or.inr ⟨node, List.mem_cons_of_mem x hn, hid⟩
      · rintro (h | ⟨node, hn, hid⟩)
        · exact Or.inl (Or.inr h)
        · rcases List.mem_cons.mp hn with rfl | hn2
          · exact Or.inl (Or.inl hid.symm)
          · exact Or.inr ⟨node, hn2, hid⟩

theorem mem_keys_nodeMap (g : WorkflowEngine) (n : Nat) :
    n ∈ (nodeMap g).map Prod.fst ↔ ∃ node, node ∈ g.nodes ∧ node.id = n := by
  simpa [nodeMap] using mem_keys_nodeMap_aux g.nodes [] n

theorem nodeMap_length_aux :
    ∀ (nodes : List WorkflowNode) (acc : List (Nat × WorkflowNode)),
      (nodes.foldl (fun m node => ainsert m node.id node) acc).length ≤
        acc.length + nodes.length := by
  intro nodes
  induction nodes with
  | nil => intro acc; simp
  | cons x xs ih =>
      intro acc
      calc (List.foldl (fun m node => ainsert m node.id node) (ainsert acc x.id x) xs).length
          ≤ (ainsert acc x.id x).length + xs.length := ih (ainsert acc x.id x)
        _ ≤ acc.length + 1 + xs.length := by
              have := ainsert_length_le acc x.id x
              omega
        _ = acc.length + (x :: xs).length := by simp; omega

theorem nodeMap_length_le (g : WorkflowEngine) : (nodeMap g).length ≤ g.nodes.length := by
  simpa [nodeMap] using nodeMap_length_aux g.nodes []

theorem mem_findStartNodes (g : WorkflowEngine) (n : Nat) :
    n ∈ findStartNodes g ↔
      (∃ node, node ∈ g.nodes ∧ node.id = n) ∧ ∀ e, e ∈ g.edges → e.targetNodeID ≠ n := by
  simp only [findStartNodes, List.mem_filter, mem_keys_nodeMap, Bool.not_eq_true',
    List.any_eq_false]
  constructor
  · rintro ⟨h1, h2⟩
    exact ⟨h1, fun e he => by simpa using h2 e he⟩
  · rintro ⟨h1, h2⟩
    exact ⟨h1, fun e he => by simpa using h2 e he⟩

theorem findStartNodes_length_le (g : WorkflowEngine) :
    (findStartNodes g).length ≤ g.nodes.length := by
  calc (findStartNodes g).length
      ≤ ((nodeMap g).map Prod.fst).length := List.length_filter_le _ _
    _ = (nodeMap g).length := List.length_map _ _
    _ ≤ g.nodes.length := nodeMap_length_le g

theorem mem_findNextNodes_aux (nodeID : Nat) (th : String) :
    ∀ (edges : List WorkflowEdge) (acc : List Nat) (m : Nat),
      (m ∈ edges.foldl
          (fun next e =>
            if e.sourceNodeID == nodeID then
              if th != "" && e.sourceHandle != th then next
              else next ++ [e.targetNodeID]
            else next)
          acc ↔
        m ∈ acc ∨ ∃ e, e ∈ edges ∧ e.sourceNodeID = nodeID ∧ e.targetNodeID = m ∧
          (th = "" ∨ e.sourceHandle = th)) := by
  intro edges
  induction edges with
  | nil => intro acc m; simp
  | cons e rest ih =>
      intro acc m
      simp only [List.foldl_cons]
      split_ifs with h1 h2
      · rw [ih]
        rw [Bool.and_eq_true, bne_iff_ne, bne_iff_ne] at h2
        have hth1 : th ≠ "" := h2.1
        have hth2 : e.sourceHandle ≠ th := h2.2
        constructor
        · rintro (h | ⟨e2, he2, hP⟩)
          · exact Or.inl h
          · exact Or.inr ⟨e2, List.mem_cons_of_mem e he2, hP⟩
        · rintro (h | ⟨e2, he2, hP⟩)
          · exact Or.inl h
          · rcases List.mem_cons.mp he2 with rfl | he3
            · rcases hP.2.2 with h3 | h3
              · exact absurd h3 hth1
              · exact absurd h3 hth2
            · exact Or.inr ⟨e2, he3, hP⟩
      · rw [ih]
        have hsrc : e.sourceNodeID = nodeID := by simpa using h1
        have hth : th = "" ∨ e.sourceHandle = th := by
          by_cases hth0 : th = ""
          · exact Or.inl hth0
          · by_cases hth1 : e.sourceHandle = th
            · exact Or.inr hth1
            · exact absurd (by simp [hth0, hth1]) h2
        constructor
        · rintro (h | ⟨e2, he2, hP⟩)
          · rcases List.mem_append.mp h with h | h
            · exact Or.inl h
            · exact Or.inr ⟨e, List.mem_cons_self e rest, hsrc,
                (List.mem_singleton.mp h).symm, hth⟩
          · exact Or.inr ⟨e2, List.mem_cons_of_mem e he2, hP⟩
        · rintro (h | ⟨e2, he2, hP⟩)
          · exact Or.inl (List.mem_append.mpr (Or.inl h))
          · rcases List.mem_cons.mp he2 with rfl | he3
            · exact Or.inl (List.mem_append.mpr (Or.inr (List.mem_singleton.mpr hP.2.1.symm)))
            · exact Or.inr ⟨e2, he3, hP⟩
      · rw [ih]
        have hsrc : e.sourceNodeID ≠ nodeID := by
          intro h; exact h1 (by simp [h])
        constructor
        · rintro (h | ⟨e2, he2, hP⟩)
          · exact Or.inl h
          · exact Or.inr ⟨e2, List.mem_cons_of_mem e he2, hP⟩
        · rintro (h | ⟨e2, he2, hP⟩)
          · exact Or.inl h
          · rcases List.mem_cons.mp he2 with rfl | he3
            · exact absurd hP.1 hsrc
            · exact Or.inr ⟨e2, he3, hP⟩

theorem mem_findNextNodes (g : WorkflowEngine) (nodeID : Nat) (th : String) (m : Nat) :
    m ∈ findNextNodes g nodeID th ↔
      ∃ e, e ∈ g.edges ∧ e.sourceNodeID = nodeID ∧ e.targetNodeID = m ∧
        (th = "" ∨ e.sourceHandle = th) := by
  simpa [findNextNodes] using mem_findNextNodes_aux nodeID th g.edges [] m

theorem findNextNodes_length_aux (nodeID : Nat) (th : String) :
    ∀ (edges : List WorkflowEdge) (acc : List Nat),
      (edges.foldl
          (fun next e =>
            if e.sourceNodeID == nodeID then
              if th != "" && e.sourceHandle != th then next
              else next ++ [e.targetNodeID]
            else next)
          acc).length ≤ acc.length + edges.length := by
  intro edges
  induction edges with
  | nil => intro acc; simp
  | cons e rest ih =>
      intro acc
      simp only [List.foldl_cons]
      split_ifs
      · refine le_trans (ih _) ?_
        simp only [List.length_cons, List.length_append, List.length_nil]
        omega
      · refine le_trans (ih _) ?_
        simp only [List.length_cons, List.length_append, List.length_nil]
        omega
      · refine le_trans (ih _) ?_
        simp only [List.length_cons, List.length_append, List.length_nil]
        omega

theorem findNextNodes_length_le (g : WorkflowEngine) (nodeID : Nat) (th : String) :
    (findNextNodes g nodeID th).length ≤ g.edges.length := by
  simpa [findNextNodes] using findNextNodes_length_aux nodeID th g.edges []

/-! Helper lemmas about `processNode` and the state effects. -/

theorem updateLog_logIds (st : EngineSt) (i : Nat) (a b c : String) :
    ((updateLog st i a b c).logs.map fun l => l.nodeId) = st.logs.map fun l => l.nodeId := by
  unfold updateLog
  exact modifyAt_map (fun l => l.nodeId)
    (fun row => { row with updates := row.updates ++ [⟨a, b, c⟩] }) (fun x => rfl) st.logs i

theorem processNode_fired (oracle : NodeOracle) (g : WorkflowEngine) (st : EngineSt)
    (nodeID : Nat) : (processNode oracle g st nodeID).1.fired = st.fired := by
  unfold processNode
  repeat' first | rfl | split | simp only []

theorem processNode_logIds (oracle : NodeOracle) (g : WorkflowEngine) (st : EngineSt)
    (nodeID : Nat) :
    ((processNode oracle g st nodeID).1.logs.map fun l => l.nodeId) =
        (st.logs.map fun l => l.nodeId) ∨
      ((processNode oracle g st nodeID).1.logs.map fun l => l.nodeId) =
        (st.logs.map fun l => l.nodeId) ++ [nodeID] := by
  unfold processNode
  repeat'
    first
    | exact Or.inl rfl
    | (right; rw [updateLog_logIds]; simp; done)
    | (right; simp; done)
    | split
    | simp only []

theorem countLogs_processNode_ne (oracle : NodeOracle) (g : WorkflowEngine) (st : EngineSt)
    (n id : Nat) (hid : id ≠ n) :
    countLogs (processNode oracle g st n).1 id = countLogs st id := by
  unfold countLogs
  rcases processNode_logIds oracle g st n with h | h <;> rw [h]
  rw [List.count_append]
  simp [hid]

theorem countLogs_processNode_self (oracle : NodeOracle) (g : WorkflowEngine) (st : EngineSt)
    (n : Nat) : countLogs (processNode oracle g st n).1 n ≤ countLogs st n + 1 := by
  unfold countLogs
  rcases processNode_logIds oracle g st n with h | h <;> rw [h]
  · omega
  · rw [List.count_append]
    simp [List.count_cons]

/-! Invariants of the traversal loop. -/

theorem engineLoop_countLogs (oracle : NodeOracle) (g : WorkflowEngine) :
    ∀ (fuel : Nat) (queue : List Nat) (visited : Finset Nat) (st : EngineSt),
      (∀ id, id ∈ visited → countLogs st id ≤ 1) →
      (∀ id, id ∉ visited → countLogs st id = 0) →
      ∀ id, countLogs (engineLoop oracle g fuel queue visited st).1 id ≤ 1 := by
  have hbase : ∀ (visited : Finset Nat) (st : EngineSt),
      (∀ id, id ∈ visited → countLogs st id ≤ 1) →
      (∀ id, id ∉ visited → countLogs st id = 0) →
      ∀ id, countLogs st id ≤ 1 := by
    intro visited st h1 h2 id
    by_cases hv : id ∈ visited
    · exact h1 id hv
    · rw [h2 id hv]; omega
  intro fuel
  induction fuel with
  | zero =>
      intro queue visited st h1 h2 id
      cases queue with
      | nil => exact hbase visited st h1 h2 id
      | cons n rest => exact hbase visited st h1 h2 id
  | succ fuel ih =>
      intro queue visited st h1 h2 id
      cases queue with
      | nil => exact hbase visited st h1 h2 id
      | cons n rest =>
          by_cases hmem : n ∈ visited
          · have hred : engineLoop oracle g (fuel + 1) (n :: rest) visited st
                = engineLoop oracle g fuel rest visited st := by
              simp [engineLoop, hmem]
            rw [hred]
            exact ih rest visited st h1 h2 id
          · rcases hp : processNode oracle g st n with ⟨st2, r⟩
            have hne : ∀ id2, id2 ≠ n → countLogs st2 id2 = countLogs st id2 := by
              intro id2 h
              have h3 := countLogs_processNode_ne oracle g st n id2 h
              rw [hp] at h3
              exact h3
            have hself : countLogs st2 n ≤ countLogs st n + 1 := by
              have h3 := countLogs_processNode_self oracle g st n
              rw [hp] at h3
              exact h3
            have h1' : ∀ id2, id2 ∈ insert n visited → countLogs st2 id2 ≤ 1 := by
              intro id2 hv
              rcases Finset.mem_insert.mp hv with h | hv2
              · subst h
                have h0 := h2 id2 hmem
                omega
              · rw [hne id2 (fun h => hmem (h ▸ hv2))]
                exact h1 id2 hv2
            have h2' : ∀ id2, id2 ∉ insert n visited → countLogs st2 id2 = 0 := by
              intro id2 hv
              have hvn : id2 ≠ n := fun h => hv (h ▸ Finset.mem_insert_self n visited)
              have hv2 : id2 ∉ visited := fun h => hv (Finset.mem_insert_of_mem h)
              rw [hne id2 hvn]
              exact h2 id2 hv2
            cases r with
            | error e =>
                have hred : engineLoop oracle g (fuel + 1) (n :: rest) visited st
                    = (markFailed st2, RunOutcome.failed e) := by
                  simp [engineLoop, hmem, hp]
                rw [hred]
                exact hbase (insert n visited) st2 h1' h2' id
            | ok th =>
                have hred : engineLoop oracle g (fuel + 1) (n :: rest) visited st
                    = engineLoop oracle g fuel (rest ++ findNextNodes g n th)
                        (insert n visited) (recordFired st2 n th) := by
                  simp [engineLoop, hmem, hp]
                rw [hred]
                exact ih (rest ++ findNextNodes g n th) (insert n visited)
                  (recordFired st2 n th) h1' h2' id

theorem engineLoop_ne_outOfFuel (oracle : NodeOracle) (g : WorkflowEngine) :
    ∀ (fuel : Nat) (queue : List Nat) (visited : Finset Nat) (st : EngineSt),
      (∀ x, x ∈ queue → x ∈ univIds g) → visited ⊆ univIds g →
      loopMeasure g queue visited ≤ fuel →
      (engineLoop oracle g fuel queue visited st).2 ≠ RunOutcome.outOfFuel := by
  intro fuel
  induction fuel with
  | zero =>
      intro queue visited st hq hv hm
      cases queue with
      | nil => simp [engineLoop]
      | cons n rest =>
          exfalso
          have h1 : 1 ≤ loopMeasure g (n :: rest) visited := by
            unfold loopMeasure
            simp only [List.length_cons]
            omega
          omega
  | succ fuel ih =>
      intro queue visited st hq hv hm
      cases queue with
      | nil => simp [engineLoop]
      | cons n rest =>
          by_cases hmem : n ∈ visited
          · have hred : engineLoop oracle g (fuel + 1) (n :: rest) visited st
                = engineLoop oracle g fuel rest visited st := by
              simp [engineLoop, hmem]
            rw [hred]
            refine ih rest visited st (fun x hx => hq x (List.mem_cons_of_mem n hx)) hv ?_
            have h1 : loopMeasure g rest visited + 1 = loopMeasure g (n :: rest) visited := by
              unfold loopMeasure
              simp only [List.length_cons]
              omega
            omega
          · rcases hp : processNode oracle g st n with ⟨st2, r⟩
            cases r with
            | error e =>
                have hred : engineLoop oracle g (fuel + 1) (n :: rest) visited st
                    = (markFailed st2, RunOutcome.failed e) := by
                  simp [engineLoop, hmem, hp]
                rw [hred]
                simp
            | ok th =>
                have hred : engineLoop oracle g (fuel + 1) (n :: rest) visited st
                    = engineLoop oracle g fuel (rest ++ findNextNodes g n th)
                        (insert n visited) (recordFired st2 n th) := by
                  simp [engineLoop, hmem, hp]
                rw [hred]
                have hn : n ∈ univIds g := hq n (List.mem_cons_self n rest)
                refine ih (rest ++ findNextNodes g n th) (insert n visited)
                  (recordFired st2 n th) ?_ ?_ ?_
                · intro x hx
                  rcases List.mem_append.mp hx with hx2 | hx2
                  · exact hq x (List.mem_cons_of_mem n hx2)
                  · rcases (mem_findNextNodes g n th x).mp hx2 with ⟨e, he, _, htgt, _⟩
                    refine Finset.mem_union_right _ (List.mem_toFinset.mpr ?_)
                    exact htgt ▸ List.mem_map_of_mem (fun e2 => e2.targetNodeID) he
                · exact Finset.insert_subset_iff.mpr ⟨hn, hv⟩
                · have hcard : (insert n visited).card = visited.card + 1 :=
                    Finset.card_insert_of_not_mem hmem
                  have hsub : visited.card + 1 ≤ (univIds g).card := by
                    have hs2 : insert n visited ⊆ univIds g :=
                      Finset.insert_subset_iff.mpr ⟨hn, hv⟩
                    have hs3 := Finset.card_le_card hs2
                    omega
                  have hfn := findNextNodes_length_le g n th
                  unfold loopMeasure at hm ⊢
                  rw [hcard]
                  have hmul : ((univIds g).card - (visited.card + 1)) * (g.edges.length + 2)
                        + (g.edges.length + 2)
                      = ((univIds g).card - visited.card) * (g.edges.length + 2) := by
                    have hk : (univIds g).card - (visited.card + 1) + 1
                        = (univIds g).card - visited.card := by omega
                    calc ((univIds g).card - (visited.card + 1)) * (g.edges.length + 2)
                          + (g.edges.length + 2)
                        = ((univIds g).card - (visited.card + 1) + 1) * (g.edges.length + 2) := by
                          ring
                      _ = ((univIds g).card - visited.card) * (g.edges.length + 2) := by
                          rw [hk]
                  simp only [List.length_append, List.length_cons] at hm ⊢
                  omega

theorem justified_mono (g : WorkflowEngine) (f1 f2 : List (Nat × String)) (n : Nat)
    (hsub : ∀ p, p ∈ f1 → p ∈ f2) (h : Justified g f1 n) : Justified g f2 n := by
  rcases h with h | ⟨e, he, htgt, th, hth, hmatch⟩
  · exact Or.inl h
  · exact Or.inr ⟨e, he, htgt, th, hsub _ hth, hmatch⟩

theorem engineLoop_justified (oracle : NodeOracle) (g : WorkflowEngine) :
    ∀ (fuel : Nat) (queue : List Nat) (visited : Finset Nat) (st : EngineSt),
      (∀ n, n ∈ queue → Justified g st.fired n) →
      (∀ l, l ∈ st.logs → Justified g st.fired l.nodeId) →
      ∀ l, l ∈ (engineLoop oracle g fuel queue visited st).1.logs →
        Justified g (engineLoop oracle g fuel queue visited st).1.fired l.nodeId := by
  intro fuel
  induction fuel with
  | zero =>
      intro queue visited st hq hl l hmem
      cases queue with
      | nil => exact hl l hmem
      | cons n rest => exact hl l hmem
  | succ fuel ih =>
      intro queue visited st hq hl l hmem
      cases queue with
      | nil => exact hl l hmem
      | cons n rest =>
          by_cases hv : n ∈ visited
          · have hred : engineLoop oracle g (fuel + 1) (n :: rest) visited st
                = engineLoop oracle g fuel rest visited st := by
              simp [engineLoop, hv]
            rw [hred] at hmem ⊢
            exact ih rest visited st (fun m hm => hq m (List.mem_cons_of_mem n hm)) hl l hmem
          · rcases hp : processNode oracle g st n with ⟨st2, r⟩
            have hfired : st2.fired = st.fired := by
              have h3 := processNode_fired oracle g st n
              rw [hp] at h3
              exact h3
            have hlogs2 : ∀ l2, l2 ∈ st2.logs → Justified g st.fired l2.nodeId := by
              intro l2 hl2
              have hmm : l2.nodeId ∈ st2.logs.map (fun x => x.nodeId) :=
                List.mem_map_of_mem (fun x => x.nodeId) hl2
              have hids := processNode_logIds oracle g st n
              rw [hp] at hids
              rcases hids with hcase | hcase
              · rw [hcase] at hmm
                rcases List.mem_map.mp hmm with ⟨l0, hl0, hid0⟩
                exact hid0 ▸ hl l0 hl0
              · rw [hcase] at hmm
                rcases List.mem_append.mp hmm with hmm2 | hmm2
                · rcases List.mem_map.mp hmm2 with ⟨l0, hl0, hid0⟩
                  exact hid0 ▸ hl l0 hl0
                · rw [List.mem_singleton.mp hmm2]
                  exact hq n (List.mem_cons_self n rest)
            cases r with
            | error e =>
                have hred : engineLoop oracle g (fuel + 1) (n :: rest) visited st
                    = (markFailed st2, RunOutcome.failed e) := by
                  simp [engineLoop, hv, hp]
                rw [hred] at hmem ⊢
                have hmem2 : l ∈ st2.logs := hmem
                exact hfired ▸ hlogs2 l hmem2
            | ok th =>
                have hred : engineLoop oracle g (fuel + 1) (n :: rest) visited st
                    = engineLoop oracle g fuel (rest ++ findNextNodes g n th)
                        (insert n visited) (recordFired st2 n th) := by
                  simp [engineLoop, hv, hp]
                rw [hred] at hmem ⊢
                have hfired3 : (recordFired st2 n th).fired = st.fired ++ [(n, th)] := by
                  unfold recordFired
                  rw [hfired]
                have hsub : ∀ p, p ∈ st.fired → p ∈ (recordFired st2 n th).fired := by
                  intro p hpmem
                  rw [hfired3]
                  exact List.mem_append.mpr (Or.inl hpmem)
                refine ih (rest ++ findNextNodes g n th) (insert n visited)
                  (recordFired st2 n th) ?_ ?_ l hmem
                · intro m hm
                  rcases List.mem_append.mp hm with hm2 | hm2
                  · exact justified_mono g st.fired _ m hsub (hq m (List.mem_cons_of_mem n hm2))
                  · rcases (mem_findNextNodes g n th m).mp hm2 with ⟨e, he, hsrc, htgt, hth⟩
                    refine Or.inr ⟨e, he, htgt, th, ?_, hth⟩
                    rw [hfired3, hsrc]
                    exact List.mem_append.mpr (Or.inr (List.mem_singleton.mpr rfl))
                · intro l2 hl2
                  exact justified_mono g st.fired _ l2.nodeId hsub (hlogs2 l2 hl2)

theorem updateLog_logs_eq (st2 : EngineSt) (pre : List LogEntry) (nodeID : Nat)
    (a b c : String) (hl : st2.logs = pre ++ [⟨nodeID, "running", []⟩]) :
    (updateLog st2 pre.length a b c).logs = pre ++ [⟨nodeID, "running", [⟨a, b, c⟩]⟩] := by
  unfold updateLog
  simp only [hl]
  simpa using modifyAt_append_length pre (⟨nodeID, "running", []⟩ : LogEntry)
    (fun row => { row with updates := row.updates ++ [⟨a, b, c⟩] })

/-! Claim theorems. -/

/-- C1: the spec and the executor comments promise that a soft failure
(status failed, triggered handle `output_error`, nil error) lets the run
continue down the `output_error` edges, but `processNode` turns every
failed-status result into an error, so the engine records the failed log
and aborts the run as failed without executing the `output_error` target:
on the two-node graph the run ends failed and node 2 gets no log. -/
theorem c1_soft_failure_aborts_run :
    (ExecuteRun c1Oracle c1Graph).2 = RunOutcome.failed "node execution failed" ∧
    (ExecuteRun c1Oracle c1Graph).1.runUpdates = [("running", false), ("failed", true)] ∧
    ((ExecuteRun c1Oracle c1Graph).1.logs.map fun l => l.nodeId) = [1] ∧
    ((ExecuteRun c1Oracle c1Graph).1.logs.map fun l => l.updates.map fun u => u.status)
      = [["failed"]] := by
  refine ⟨by decide, by decide, by decide, by decide⟩

/-- C2 counterexample: cancelling the context during a sleeping wait
executor makes the executor return status cancelled with a non-nil error,
after which the engine updates the node's log to failed with the
cancellation error and marks the run failed; no run update ever carries
the status cancelled, refuting the claimed terminal status. -/
theorem c2_cancelled_wait_run_not_cancelled :
    (waitExecute ⟨10000, "ms"⟩ true).1.status = "cancelled" ∧
    (ExecuteRun (c2Oracle 10000) (c2Graph 10000)).1.logs
      = [⟨1, "running", [⟨"failed", "", "context canceled"⟩]⟩] ∧
    (ExecuteRun (c2Oracle 10000) (c2Graph 10000)).2 = RunOutcome.failed "context canceled" ∧
    (ExecuteRun (c2Oracle 10000) (c2Graph 10000)).1.runUpdates
      = [("running", false), ("failed", true)] ∧
    ¬ ∃ b, ("cancelled", b) ∈ (ExecuteRun (c2Oracle 10000) (c2Graph 10000)).1.runUpdates := by
  refine ⟨by decide, by decide, by decide, by decide, by decide⟩

/-- C2 amended: when the context is cancelled while a wait executor of any
positive duration sleeps, the executor returns status cancelled plus the
non-nil cancellation error, and the run terminal status becomes failed,
not cancelled; along the way the node's log row is updated once, to
failed, carrying the cancellation error. -/
theorem c2_amended_cancelled_wait_fails_run (d : Int) (h : 0 < d) :
    (waitExecute ⟨d, "ms"⟩ true).1.status = "cancelled" ∧
    (waitExecute ⟨d, "ms"⟩ true).2 = some "context canceled" ∧
    (ExecuteRun (c2Oracle d) (c2Graph d)).1.logs
      = [⟨1, "running", [⟨"failed", "", "context canceled"⟩]⟩] ∧
    (ExecuteRun (c2Oracle d) (c2Graph d)).2 = RunOutcome.failed "context canceled" ∧
    (ExecuteRun (c2Oracle d) (c2Graph d)).1.runUpdates
      = [("running", false), ("failed", true)] := by
  exact ⟨rfl, rfl, rfl, rfl, rfl⟩

/-- C2 amended witness at duration 10000 ms. -/
theorem c2_amended_cancelled_wait_fails_run_witness :
    (ExecuteRun (c2Oracle 10000) (c2Graph 10000)).2 = RunOutcome.failed "context canceled" :=
  (c2_amended_cancelled_wait_fails_run 10000 (by decide)).2.2.2.1

/-- C5: `findNextNodes` keeps exactly the outgoing edges whose source
handle equals a non-empty triggered handle (all edges when it is empty),
and every node that ever gets a log row in a run is a start node or the
target of an edge that fired with a matching handle, so nodes reachable
only through non-matching edges are never executed. -/
theorem c5_handle_isolation :
    (∀ (g : WorkflowEngine) (nodeID : Nat) (th : String) (m : Nat),
        m ∈ findNextNodes g nodeID th ↔
          ∃ e, e ∈ g.edges ∧ e.sourceNodeID = nodeID ∧ e.targetNodeID = m ∧
            (th = "" ∨ e.sourceHandle = th)) ∧
    ∀ (oracle : NodeOracle) (g : WorkflowEngine) (fuel : Nat) (l : LogEntry),
      l ∈ (Execute oracle g fuel).1.logs →
        Justified g (Execute oracle g fuel).1.fired l.nodeId := by
  constructor
  · exact mem_findNextNodes
  · intro oracle g fuel l hmem
    unfold Execute at hmem ⊢
    cases hs : findStartNodes g with
    | nil =>
        simp only [hs] at hmem
        simp [markFailed] at hmem
    | cons a starts2 =>
        simp only [hs] at hmem ⊢
        refine engineLoop_justified oracle g fuel (a :: starts2) ∅ emptySt ?_ ?_ l hmem
        · intro m hm
          exact Or.inl (by rw [hs]; exact hm)
        · intro l2 hl2
          exact absurd hl2 (List.not_mem_nil l2)

/-- C5 witness: in the concrete condition run that triggers `output_true`,
the executed true-branch node 2 is justified by a fired edge. -/
theorem c5_handle_isolation_witness :
    Justified c5Graph (Execute c5Oracle c5Graph (engineFuel c5Graph)).1.fired 2 :=
  c5_handle_isolation.2 c5Oracle c5Graph (engineFuel c5Graph)
    ⟨2, "running", [⟨"completed", "Logged", ""⟩]⟩ (by decide)

/-- C6 counterexample: on a cyclic graph the start set is empty, the run is
failed without executing any node, but the message is the string
`No start nodes found`, not the claimed `no start nodes`. -/
theorem c6_no_start_nodes_message :
    (ExecuteRun defaultOracle c6Graph).2 = RunOutcome.failed "No start nodes found" ∧
    "No start nodes found" ≠ "no start nodes" ∧
    (ExecuteRun defaultOracle c6Graph).1.logs = [] := by
  refine ⟨by decide, by decide, by decide⟩

/-- C6 amended: the start-node set is exactly the set of nodes that are not
the target of any edge, and when it is empty the engine transitions the run
to failed with the message `No start nodes found` and creates no log. -/
theorem c6_amended_start_nodes :
    (∀ (g : WorkflowEngine) (n : Nat),
        n ∈ findStartNodes g ↔
          (∃ node, node ∈ g.nodes ∧ node.id = n) ∧
            ∀ e, e ∈ g.edges → e.targetNodeID ≠ n) ∧
    ∀ (oracle : NodeOracle) (g : WorkflowEngine) (fuel : Nat),
      findStartNodes g = [] →
        (Execute oracle g fuel).2 = RunOutcome.failed "No start nodes found" ∧
        (Execute oracle g fuel).1.logs = [] ∧
        (Execute oracle g fuel).1.runUpdates = [("running", false), ("failed", true)] := by
  constructor
  · exact mem_findStartNodes
  · intro oracle g fuel hs
    unfold Execute
    simp only [hs]
    refine ⟨?_, ?_, ?_⟩ <;> trivial

/-- C6 amended witness on the concrete cyclic graph. -/
theorem c6_amended_start_nodes_witness :
    (Execute defaultOracle c6Graph 5).2 = RunOutcome.failed "No start nodes found" :=
  (c6_amended_start_nodes.2 defaultOracle c6Graph 5 (by decide)).1

/-- C7: with the sufficient fuel bound the traversal loop always drains or
aborts (never exhausts fuel), and every node id receives at most one log
row, i.e. is executed at most once per run, for every finite graph and
every executor behavior, cycles included. -/
theorem c7_traversal_terminates_at_most_once (oracle : NodeOracle) (g : WorkflowEngine) :
    (ExecuteRun oracle g).2 ≠ RunOutcome.outOfFuel ∧
    ∀ id, countLogs (ExecuteRun oracle g).1 id ≤ 1 := by
  constructor
  · unfold ExecuteRun Execute
    cases hs : findStartNodes g with
    | nil => simp
    | cons a starts2 =>
        simp only [hs]
        refine engineLoop_ne_outOfFuel oracle g (engineFuel g) (a :: starts2) ∅ emptySt
          ?_ ?_ ?_
        · intro x hx
          have hx2 : x ∈ findStartNodes g := by rw [hs]; exact hx
          have hx3 : x ∈ ((nodeMap g).map Prod.fst) := (List.mem_filter.mp hx2).1
          exact Finset.mem_union_left _ (List.mem_toFinset.mpr hx3)
        · exact Finset.empty_subset _
        · unfold loopMeasure engineFuel
          rw [Finset.card_empty, Nat.sub_zero]
          have h1 : (a :: starts2).length ≤ g.nodes.length := by
            rw [← hs]
            exact findStartNodes_length_le g
          omega
  · intro id
    unfold ExecuteRun Execute
    cases hs : findStartNodes g with
    | nil => simp [markFailed, countLogs]
    | cons a starts2 =>
        simp only [hs]
        refine engineLoop_countLogs oracle g (engineFuel g) (a :: starts2) ∅ emptySt
          ?_ ?_ id
        · intro id2 h
          exact absurd h (Finset.not_mem_empty id2)
        · intro id2 h
          rfl

/-- C3 counterexample: a node whose configuration has no `type` key gets a
log row created in status running that never receives a terminal update;
the run aborts as failed with the running log left behind. -/
theorem c3_missing_type_log_never_finalised :
    (ExecuteRun defaultOracle c3Graph).1.logs = [⟨1, "running", []⟩] ∧
    (ExecuteRun defaultOracle c3Graph).2 = RunOutcome.failed "node type not found in data" ∧
    (ExecuteRun defaultOracle c3Graph).1.runUpdates = [("running", false), ("failed", true)] := by
  refine ⟨by decide, by decide, by decide⟩

/-- C3 amended: for every node the engine processes, exactly one log row is
created, in status running, before the executor is invoked; when the
configuration carries a string `type`, that row receives exactly one
update, always to a terminal status; when `type` is missing or not a
string, the row receives no update at all and processing returns an error
that aborts the run. -/
theorem c3_amended_log_discipline (oracle : NodeOracle) (g : WorkflowEngine) (st : EngineSt)
    (n : Nat) (node : WorkflowNode) (h : alookup (nodeMap g) n = some node) :
    ∃ row, (processNode oracle g st n).1.logs = st.logs ++ [row] ∧
      row.nodeId = n ∧ row.createdStatus = "running" ∧
      ((∃ s, alookup node.data "type" = some (Json.str s)) →
        row.updates.length = 1 ∧
          ∀ u, u ∈ row.updates → u.status = "failed" ∨ u.status = "completed") ∧
      ((¬ ∃ s, alookup node.data "type" = some (Json.str s)) →
        row.updates = [] ∧ ∃ e, (processNode oracle g st n).2 = Except.error e) := by
  unfold processNode
  rw [h]
  simp only []
  cases h2 : alookup node.data "type" with
  | none =>
      refine ⟨⟨n, "running", []⟩, rfl, rfl, rfl, ?_, ?_⟩
      · rintro ⟨s, hs⟩
        simp at hs
      · intro hns
        exact ⟨rfl, ⟨"node type not found in data", rfl⟩⟩
  | some tv =>
      cases tv with
      | str s =>
          simp only []
          by_cases hk : knownTypes.contains s = true
          · simp only [if_pos hk]
            rcases hres : oracle s (Json.obj (ainsert node.data "input"
                (Json.obj (resolveInputs st.nodeOutputs (getIncomingEdges g n))))) with
              ⟨result, err⟩
            cases err with
            | some e =>
                refine ⟨⟨n, "running", [⟨"failed", "", e⟩]⟩, ?_, rfl, rfl, ?_, ?_⟩
                · exact updateLog_logs_eq _ st.logs n "failed" "" e rfl
                · intro hyes
                  refine ⟨rfl, ?_⟩
                  intro u hu
                  rw [List.mem_singleton.mp hu]
                  exact Or.inl rfl
                · intro hns
                  exact absurd ⟨s, rfl⟩ hns
            | none =>
                simp only []
                by_cases hrs : (result.status == "failed") = true
                · simp only [if_pos hrs]
                  refine ⟨⟨n, "running", [⟨"failed", result.log, ""⟩]⟩, ?_, rfl, rfl, ?_, ?_⟩
                  · exact updateLog_logs_eq _ st.logs n "failed" result.log "" rfl
                  · intro hyes
                    refine ⟨rfl, ?_⟩
                    intro u hu
                    rw [List.mem_singleton.mp hu]
                    exact Or.inl rfl
                  · intro hns
                    exact absurd ⟨s, rfl⟩ hns
                · simp only [if_neg hrs]
                  refine ⟨⟨n, "running", [⟨"completed", result.log, ""⟩]⟩, ?_, rfl, rfl, ?_, ?_⟩
                  · exact updateLog_logs_eq _ st.logs n "completed" result.log "" rfl
                  · intro hyes
                    refine ⟨rfl, ?_⟩
                    intro u hu
                    rw [List.mem_singleton.mp hu]
                    exact Or.inr rfl
                  · intro hns
                    exact absurd ⟨s, rfl⟩ hns
          · simp only [if_neg hk]
            refine ⟨⟨n, "running", [⟨"failed", "", "unknown node type: " ++ s⟩]⟩,
              ?_, rfl, rfl, ?_, ?_⟩
            · exact updateLog_logs_eq _ st.logs n "failed" "" ("unknown node type: " ++ s) rfl
            · intro hyes
              refine ⟨rfl, ?_⟩
              intro u hu
              rw [List.mem_singleton.mp hu]
              exact Or.inl rfl
            · intro hns
              exact absurd ⟨s, rfl⟩ hns
      | null =>
          refine ⟨⟨n, "running", []⟩, rfl, rfl, rfl, ?_, ?_⟩
          · rintro ⟨s, hs⟩
            simp at hs
          · intro hns
            exact ⟨rfl, ⟨"invalid node type format", rfl⟩⟩
      | bool b =>
          refine ⟨⟨n, "running", []⟩, rfl, rfl, rfl, ?_, ?_⟩
          · rintro ⟨s, hs⟩
            simp at hs
          · intro hns
            exact ⟨rfl, ⟨"invalid node type format", rfl⟩⟩
      | num q =>
          refine ⟨⟨n, "running", []⟩, rfl, rfl, rfl, ?_, ?_⟩
          · rintro ⟨s, hs⟩
            simp at hs
          · intro hns
            exact ⟨rfl, ⟨"invalid node type format", rfl⟩⟩
      | arr xs =>
          refine ⟨⟨n, "running", []⟩, rfl, rfl, rfl, ?_, ?_⟩
          · rintro ⟨s, hs⟩
            simp at hs
          · intro hns
            exact ⟨rfl, ⟨"invalid node type format", rfl⟩⟩
      | obj fs =>
          refine ⟨⟨n, "running", []⟩, rfl, rfl, rfl, ?_, ?_⟩
          · rintro ⟨s, hs⟩
            simp at hs
          · intro hns
            exact ⟨rfl, ⟨"invalid node type format", rfl⟩⟩

/-- C3 amended witness on a single `set_data` node. -/
theorem c3_amended_log_discipline_witness :
    ∃ row, (processNode defaultOracle c3WitnessGraph emptySt 1).1.logs
        = emptySt.logs ++ [row] ∧
      row.nodeId = 1 ∧ row.createdStatus = "running" ∧
      ((∃ s, alookup c3WitnessNode.data "type" = some (Json.str s)) →
        row.updates.length = 1 ∧
          ∀ u, u ∈ row.updates → u.status = "failed" ∨ u.status = "completed") ∧
      ((¬ ∃ s, alookup c3WitnessNode.data "type" = some (Json.str s)) →
        row.updates = [] ∧
          ∃ e, (processNode defaultOracle c3WitnessGraph emptySt 1).2 = Except.error e) :=
  c3_amended_log_discipline defaultOracle c3WitnessGraph emptySt 1 c3WitnessNode rfl

/-- C4 counterexample: two incoming edges share the target handle `in`,
both sources produced outputs with their source handles present; the first
edge should, by the claim, set `input[in]` to `v1`, but the later edge
overwrites it with `v2`. -/
theorem c4_duplicate_target_handle_last_wins :
    alookup (resolveInputs c4Outputs c4Incoming) "in" = some (Json.str "v2") ∧
    Json.str "v2" ≠ Json.str "v1" := by
  refine ⟨rfl, ?_⟩
  intro h
  injection h with h2
  exact absurd h2 (by decide)

/-- C4 amended: the value routed to a target handle is determined by the
last incoming edge with that target handle whose source has produced an
output map: `S.output[Hs]` when `Hs` is present, else the whole output map;
when no such edge exists the handle is absent from the input. -/
theorem c4_amended_output_routing (outputs : List (Nat × List (String × Json)))
    (incoming : List WorkflowEdge) (ht : String) :
    alookup (resolveInputs outputs incoming) ht
      = (lastQualifying outputs incoming ht).bind (routedValue outputs) := by
  have haux : ∀ (l : List WorkflowEdge) (acc : List (String × Json)),
      alookup (l.foldl
          (fun acc e =>
            match routedValue outputs e with
            | none => acc
            | some v => ainsert acc e.targetHandle v)
          acc) ht
        = match lastQualifying outputs l ht with
          | some e => routedValue outputs e
          | none => alookup acc ht := by
    intro l
    induction l with
    | nil => intro acc; simp [lastQualifying]
    | cons e rest ih =>
        intro acc
        rw [List.foldl_cons]
        cases hr : routedValue outputs e with
        | none =>
            simp only [hr]
            rw [ih]
            cases hl : lastQualifying outputs rest ht with
            | some x => simp [lastQualifying, hl]
            | none => simp [lastQualifying, hl, hr]
        | some v =>
            simp only [hr]
            rw [ih]
            cases hl : lastQualifying outputs rest ht with
            | some x => simp [lastQualifying, hl]
            | none =>
                by_cases hth : e.targetHandle = ht
                · simp [lastQualifying, hl, hr, hth, alookup_ainsert]
                · simp only [lastQualifying, hl, hr, Option.isSome_some, and_true,
                    alookup_ainsert]
                  rw [if_neg hth, if_neg (fun h3 => hth h3.symm)]
  rw [resolveInputs, haux incoming []]
  cases hl : lastQualifying outputs incoming ht with
  | some x => simp
  | none => simp [alookup]

/-- C8 counterexample: comparing two structurally equal JSON objects with
the `==` operator does not return a result at all: Go interface equality on
two maps panics, modelled as `none`, so no completed result with
`result = true` is produced. -/
theorem c8_condition_eq_panics_on_objects :
    conditionExecute (Json.obj [("a", Json.num 1)]) "==" (Json.obj [("a", Json.num 1)]) = none ∧
    Json.obj [("a", Json.num 1)] = Json.obj [("a", Json.num 1)] :=
  ⟨rfl, rfl⟩

/-- C8 amended: whenever the two operands are not both objects and not both
arrays, the `==` operator returns a completed result whose `result` output
and triggered handle reflect structural equality of the original values;
when both are objects or both arrays the comparison panics instead of
returning a result. -/
theorem c8_amended_condition_eq (v1 v2 : Json) (h : scalarComparable v1 v2 = true) :
    ∃ b, conditionExecute v1 "==" v2 = some (condResult b) ∧
      (condResult b).1.status = "completed" ∧
      alookup (condResult b).1.outputData "result" = some (Json.bool b) ∧
      (condResult b).1.triggeredHandle = (if b then "output_true" else "output_false") ∧
      (condResult b).2 = none ∧
      (b = true ↔ v1 = v2) := by
  cases v1 <;> cases v2 <;>
    first
      | (refine ⟨_, rfl, rfl, rfl, rfl, rfl, ?_⟩
         simp
         done)
      | exact absurd h (by simp [scalarComparable])

/-- C8 amended witness on two equal numbers. -/
theorem c8_amended_condition_eq_witness :
    ∃ b, conditionExecute (Json.num 1) "==" (Json.num 1) = some (condResult b) ∧
      (condResult b).1.status = "completed" ∧
      alookup (condResult b).1.outputData "result" = some (Json.bool b) ∧
      (condResult b).1.triggeredHandle = (if b then "output_true" else "output_false") ∧
      (condResult b).2 = none ∧
      (b = true ↔ Json.num 1 = Json.num 1) :=
  c8_amended_condition_eq (Json.num 1) (Json.num 1) rfl

/-- C9: whenever a response is obtained, whatever its status code, the
executor completes with handle `output_success` and nil error; the
`output_error` handle appears exactly on the no-response (transport
failure) outcome. -/
theorem c9_http_received_response_completes (d : HttpData) (code : Int) (bodyVal hdrs : Json)
    (h : d.url ≠ "") :
    httpRequestExecute d none (HttpOutcome.gotResponse code bodyVal hdrs)
        = (⟨"completed",
            [("status", Json.num (code : ℚ)), ("body", bodyVal), ("headers", hdrs)],
            "output_success",
            "Request completed with status " ++ toString code⟩, none) ∧
    ∀ (reqErr : Option String) (outcome : HttpOutcome),
      (httpRequestExecute d reqErr outcome).1.triggeredHandle = "output_error" →
        ∃ msg, outcome = HttpOutcome.noResponse msg := by
  constructor
  · unfold httpRequestExecute
    rw [if_neg h]
  · intro reqErr outcome htrig
    unfold httpRequestExecute at htrig
    by_cases hu : d.url = ""
    · rw [if_pos hu] at htrig
      simp at htrig
    · rw [if_neg hu] at htrig
      cases reqErr with
      | some e => simp at htrig
      | none =>
          cases outcome with
          | noResponse m => exact ⟨m, rfl⟩
          | gotResponse c b hd => simp at htrig

/-- C9 witness: a 500 response still completes through `output_success`. -/
theorem c9_http_received_response_completes_witness :
    httpRequestExecute ⟨"http://example.com", "GET", [], none⟩ none
        (HttpOutcome.gotResponse 500 (Json.str "oops") (Json.obj []))
      = (⟨"completed",
          [("status", Json.num ((500 : Int) : ℚ)), ("body", Json.str "oops"),
           ("headers", Json.obj [])],
          "output_success",
          "Request completed with status " ++ toString (500 : Int)⟩, none) :=
  (c9_http_received_response_completes ⟨"http://example.com", "GET", [], none⟩ 500
    (Json.str "oops") (Json.obj []) (by decide)).1

/-- C10: empty incoming strings leave the status, log output and error
message columns unchanged; `finished_at` is stamped exactly when the
incoming status is terminal and the column is null; a stored log output or
error message is never cleared and the first terminal timestamp is never
overwritten. -/
theorem c10_update_frame_conditions (row : NodeRunLogRow) (req : UpdateNodeRunLogRequest)
    (now : Nat) :
    (req.status = "" → (updateNodeRunLogRow row req now).status = row.status) ∧
    (req.logOutput = "" → (updateNodeRunLogRow row req now).logOutput = row.logOutput) ∧
    (req.errorMsg = "" → (updateNodeRunLogRow row req now).errorMsg = row.errorMsg) ∧
    ((updateNodeRunLogRow row req now).finishedAt
      = if req.status ∈ terminalStatuses ∧ row.finishedAt = none then some now
        else row.finishedAt) ∧
    (row.logOutput ≠ none → (updateNodeRunLogRow row req now).logOutput ≠ none) ∧
    (row.errorMsg ≠ none → (updateNodeRunLogRow row req now).errorMsg ≠ none) ∧
    (∀ t, row.finishedAt = some t → (updateNodeRunLogRow row req now).finishedAt = some t) := by
  refine ⟨?_, ?_, ?_, rfl, ?_, ?_, ?_⟩
  · intro h
    simp [updateNodeRunLogRow, nullif, h]
  · intro h
    simp [updateNodeRunLogRow, nullif, h]
  · intro h
    simp [updateNodeRunLogRow, nullif, h]
  · intro h
    unfold updateNodeRunLogRow
    cases hn : nullif req.logOutput <;> simp [hn, h]
  · intro h
    unfold updateNodeRunLogRow
    cases hn : nullif req.errorMsg <;> simp [hn, h]
  · intro t ht
    unfold updateNodeRunLogRow
    simp [ht]

/-- C10 witness: an all-empty update leaves the stored row fields in
place. -/
theorem c10_update_frame_conditions_witness :
    (updateNodeRunLogRow c10Row c10Req 7).status = "running" ∧
    (updateNodeRunLogRow c10Row c10Req 7).logOutput = some "previous output" ∧
    (updateNodeRunLogRow c10Row c10Req 7).errorMsg = some "previous error" :=
  ⟨(c10_update_frame_conditions c10Row c10Req 7).1 rfl,
   (c10_update_frame_conditions c10Row c10Req 7).2.1 rfl,
   (c10_update_frame_conditions c10Row c10Req 7).2.2.1 rfl⟩

end Loki
